import Mathlib

/-!
Shallow embedding of `src/Password_Generator.py` (the core generator: the
constants, `secure_shuffle`, `build_pools` and `generate_password`).

Modelling conventions:
* Python strings are `List Char`; the generated password is the list of its
  characters (Python `"".join` is dropped).
* The random source (`secrets`) is an oracle stream `g : Nat → Nat` of raw
  draw results, consumed at successive indices 0, 1, 2, ….  The call
  `secrets.randbelow n` at consumption index `k` is modelled as `g k % n`,
  which ranges over exactly the values `0 … n-1` as the oracle varies, and
  `secrets.choice pool` as the element of `pool` at index `g k % pool.length`.
* `raise ValueError(msg)` becomes `Except.error msg`; a normal return becomes
  `Except.ok`.
* `generate_password` consumes draws in the same order as the Python code:
  one draw per selected pool, then one per filler position, then the
  Fisher–Yates draws of `secure_shuffle`.
-/

namespace PasswordGenerator

/-- Python `DEFAULT_SPECIALS = "!@#$%^&*()-_=+[]\x7b\x7d;:,.?/"` (the braces are the
literal brace characters of the curated symbol set). -/
def DEFAULT_SPECIALS : List Char := "!@#$%^&*()-_=+[]\x7b\x7d;:,.?/".toList

/-- Python `AMBIGUOUS = set("Il1O0o")`. -/
def AMBIGUOUS : List Char := "Il1O0o".toList

/-- Python `string.digits`. -/
def string_digits : List Char := "0123456789".toList

/-- Python `string.ascii_letters` (lowercase then uppercase). -/
def ascii_letters : List Char :=
  "abcdefghijklmnopqrstuvwxyzABCDEFGHIJKLMNOPQRSTUVWXYZ".toList

/-- Python `ch.isspace()` restricted to the ASCII whitespace characters
(space, tab, newline, carriage return, vertical tab, form feed); the further
Unicode whitespace code points accepted by Python are not modelled, and no
string in this development contains one. -/
def pyIsSpace (c : Char) : Bool :=
  c == ' ' || c == '\t' || c == '\n' || c == '\r' || c == '\x0b' || c == '\x0c'

/-- Model of `secrets.choice pool` given the raw oracle value `r`: the element
at index `r % pool.length` (`secrets.randbelow` applied to the pool size).
The fallback `?` is never hit on the non-empty pools the program uses. -/
def choice (r : Nat) (pool : List Char) : Char :=
  pool.getD (r % pool.length) '?'

/-- Python tuple swap `items[i], items[j] = items[j], items[i]`, as a function
on lists; indices out of range (never produced by `secure_shuffle`) leave the
list unchanged. -/
def swap (l : List Char) (i j : Nat) : List Char :=
  match l[i]?, l[j]? with
  | some a, some b => (l.set i b).set j a
  | _, _ => l

/-- Loop of `secure_shuffle`: `fuel` counts the remaining iterations, so at
fuel `i + 1` the current Python loop index is `i + 1` and the drawn index is
`randbelow (i + 2)`, modelled as `g k % (i + 2)`; `k` is the next oracle
consumption index. -/
def fyAux (g : Nat → Nat) : Nat → List Char → Nat → List Char
  | _, l, 0 => l
  | k, l, Nat.succ i => fyAux g (k + 1) (swap l (i + 1) (g k % (i + 2))) i

/-- Python `secure_shuffle(items)`: Fisher–Yates, `for i in range(len(items) - 1, 0, -1)`,
swapping `items[i]` with `items[randbelow(i + 1)]`.  `k` is the oracle index of
the first draw; the in-place mutation is rendered by returning the new list. -/
def secure_shuffle (g : Nat → Nat) (k : Nat) (items : List Char) : List Char :=
  fyAux g k items (items.length - 1)

/-- Digits pool of `build_pools`: `string.digits`, filtered of `AMBIGUOUS`
characters when `exclude_ambiguous` is set. -/
def digitsPool (exclude_ambiguous : Bool) : List Char :=
  if exclude_ambiguous then
    string_digits.filter (fun ch => !(AMBIGUOUS.contains ch))
  else string_digits

/-- Letters pool of `build_pools`: `string.ascii_letters`, filtered of
`AMBIGUOUS` characters when `exclude_ambiguous` is set. -/
def lettersPool (exclude_ambiguous : Bool) : List Char :=
  if exclude_ambiguous then
    ascii_letters.filter (fun ch => !(AMBIGUOUS.contains ch))
  else ascii_letters

/-- Specials pool of `build_pools`: the user string with every whitespace
character removed (`"".join(ch for ch in specials if not ch.isspace())`).
Note the source applies no ambiguous-character filter here. -/
def specialsPool (specials : List Char) : List Char :=
  specials.filter (fun ch => !(pyIsSpace ch))

/-- Python `build_pools(use_digits, use_letters, use_special, specials,
exclude_ambiguous)`: accumulates `(pools, combined)` over the three class
flags in order digits, letters, specials; raises on an empty filtered
specials string and on an empty combined pool. -/
def build_pools (use_digits use_letters use_special : Bool)
    (specials : List Char) (exclude_ambiguous : Bool) :
    Except String (List (List Char) × List Char) :=
  let pc0 : List (List Char) × List Char := ([], [])
  let pc1 :=
    if use_digits then
      (pc0.1 ++ [digitsPool exclude_ambiguous], pc0.2 ++ digitsPool exclude_ambiguous)
    else pc0
  let pc2 :=
    if use_letters then
      (pc1.1 ++ [lettersPool exclude_ambiguous], pc1.2 ++ lettersPool exclude_ambiguous)
    else pc1
  if use_special then
    let sp := specialsPool specials
    if sp = [] then Except.error "Specials set is empty after removing whitespace."
    else
      let pc3 := (pc2.1 ++ [sp], pc2.2 ++ sp)
      if pc3.2 = [] then Except.error "Select at least one character set."
      else Except.ok pc3
  else
    if pc2.2 = [] then Except.error "Select at least one character set."
    else Except.ok pc2

/-- Python `[secrets.choice(pool) for pool in pools]`, the oracle consumed at
indices `k, k + 1, …`. -/
def mandatoryChars (g : Nat → Nat) (k : Nat) : List (List Char) → List Char
  | [] => []
  | pool :: pools => choice (g k) pool :: mandatoryChars g (k + 1) pools

/-- Python `[secrets.choice(combined) for _ in range(m)]`, the oracle consumed
at indices `k, k + 1, …`. -/
def fillChars (g : Nat → Nat) (k : Nat) (combined : List Char) : Nat → List Char
  | 0 => []
  | Nat.succ m => choice (g k) combined :: fillChars g (k + 1) combined m

/-- Message of the length check, `f"Length must be at least {len(pools)} …"`. -/
def lengthErrMsg (n : Nat) : String :=
  "Length must be at least " ++ toString n ++ " to include one of each selected set."

/-- Python `generate_password(length, use_digits, use_letters, use_special,
specials, exclude_ambiguous)`.  The Python `int` length is an `Int`; on
success the result is the password character list. -/
def generate_password (g : Nat → Nat) (length : Int)
    (use_digits use_letters use_special : Bool)
    (specials : List Char) (exclude_ambiguous : Bool) :
    Except String (List Char) :=
  if length ≤ 0 then Except.error "Length must be positive."
  else
    match build_pools use_digits use_letters use_special specials exclude_ambiguous with
    | Except.error e => Except.error e
    | Except.ok (pools, combined) =>
      if length < (pools.length : Int) then Except.error (lengthErrMsg pools.length)
      else
        Except.ok (secure_shuffle g length.toNat
          (mandatoryChars g 0 pools ++
            fillChars g pools.length combined (length.toNat - pools.length)))

/-- Observation of the error component of a result: `some msg` when the call
raised `ValueError(msg)`, `none` when it returned a password. -/
def errorPart (x : Except String (List Char)) : Option String :=
  match x with
  | Except.error e => some e
  | Except.ok _ => none

/-- Selecting from a non-empty pool yields a member of the pool. -/
theorem choice_mem (r : Nat) (pool : List Char) (h : pool ≠ []) :
    choice r pool ∈ pool := by
  have hlen : 0 < pool.length := List.length_pos.mpr h
  have hm : r % pool.length < pool.length := Nat.mod_lt _ hlen
  unfold choice
  rw [List.getD_eq_getElem?_getD, List.getElem?_eq_getElem hm]
  exact List.getElem_mem hm

/-- Moving the element at position `m` to the head while writing `a` at `m`
is a permutation of putting `a` at the head. -/
theorem cons_set_perm (a b : Char) (t : List Char) (m : Nat) (h : t[m]? = some b) :
    (b :: t.set m a).Perm (a :: t) := by
  induction t generalizing m with
  | nil => simp at h
  | cons c t ih =>
    cases m with
    | zero =>
      simp only [List.getElem?_cons_zero, Option.some_inj] at h
      rw [List.set_cons_zero, h]
      exact List.Perm.swap a b t
    | succ m =>
      rw [List.getElem?_cons_succ] at h
      rw [List.set_cons_succ]
      exact (List.Perm.swap c b (t.set m a)).trans
        ((List.Perm.cons c (ih m h)).trans (List.Perm.swap a c t))

/-- Writing the two read values back crosswise permutes the list. -/
theorem set_set_swap_perm (l : List Char) (i j : Nat) (a b : Char)
    (hi : l[i]? = some a) (hj : l[j]? = some b) :
    ((l.set i b).set j a).Perm l := by
  induction l generalizing i j with
  | nil => simp at hi
  | cons c t ih =>
    cases i with
    | zero =>
      simp only [List.getElem?_cons_zero, Option.some_inj] at hi
      cases j with
      | zero =>
        simp only [List.getElem?_cons_zero, Option.some_inj] at hj
        rw [List.set_cons_zero, List.set_cons_zero, ← hi]
      | succ m =>
        rw [List.getElem?_cons_succ] at hj
        rw [List.set_cons_zero, List.set_cons_succ, hi]
        exact cons_set_perm a b t m hj
    | succ n =>
      rw [List.getElem?_cons_succ] at hi
      cases j with
      | zero =>
        simp only [List.getElem?_cons_zero, Option.some_inj] at hj
        rw [List.set_cons_succ, List.set_cons_zero, hj]
        exact cons_set_perm b a t n hi
      | succ m =>
        rw [List.getElem?_cons_succ] at hj
        rw [List.set_cons_succ, List.set_cons_succ]
        exact List.Perm.cons c (ih n m hi hj)

/-- One Python tuple swap permutes the list (at any indices). -/
theorem swap_perm (l : List Char) (i j : Nat) : (swap l i j).Perm l := by
  unfold swap
  split
  · next a b hi hj => exact set_set_swap_perm l i j a b hi hj
  · exact List.Perm.refl l

/-- Every run of the Fisher–Yates loop permutes the list. -/
theorem fyAux_perm (g : Nat → Nat) (fuel : Nat) :
    ∀ (k : Nat) (l : List Char), (fyAux g k l fuel).Perm l := by
  induction fuel with
  | zero => intro k l; exact List.Perm.refl l
  | succ i ih =>
    intro k l
    exact (ih (k + 1) (swap l (i + 1) (g k % (i + 2)))).trans
      (swap_perm l (i + 1) (g k % (i + 2)))

/-- `secure_shuffle` permutes its input, whatever the oracle produces. -/
theorem secure_shuffle_perm (g : Nat → Nat) (k : Nat) (items : List Char) :
    (secure_shuffle g k items).Perm items :=
  fyAux_perm g (items.length - 1) k items

/-- Both filtered digit pools are non-empty. -/
theorem digitsPool_ne_nil (ex : Bool) : digitsPool ex ≠ [] := by cases ex <;> decide

/-- Both filtered letter pools are non-empty. -/
theorem lettersPool_ne_nil (ex : Bool) : lettersPool ex ≠ [] := by cases ex <;> decide

/-- On success, `build_pools` returns only non-empty pools, each of whose
characters occurs in the combined pool, and a non-empty combined pool. -/
theorem build_pools_ok_facts (d l s : Bool) (sp : List Char) (ex : Bool)
    (P : List (List Char)) (C : List Char)
    (h : build_pools d l s sp ex = Except.ok (P, C)) :
    (∀ p ∈ P, p ≠ []) ∧ (∀ p ∈ P, ∀ c ∈ p, c ∈ C) ∧ C ≠ [] := by
  cases d <;> cases l <;> cases s <;>
    simp [build_pools, digitsPool_ne_nil, lettersPool_ne_nil] at h
  · split_ifs at h with hsp <;> simp at h
    obtain ⟨hP, hC⟩ := h
    subst hP; subst hC
    refine ⟨?_, ?_, ?_⟩ <;>
      simp [List.forall_mem_cons, List.mem_append, digitsPool_ne_nil, lettersPool_ne_nil, hsp] <;>
      tauto
  · obtain ⟨hP, hC⟩ := h
    subst hP; subst hC
    refine ⟨?_, ?_, ?_⟩ <;>
      simp [List.forall_mem_cons, List.mem_append, digitsPool_ne_nil, lettersPool_ne_nil] <;>
      tauto
  · split_ifs at h with hsp <;> simp at h
    obtain ⟨hP, hC⟩ := h
    subst hP; subst hC
    refine ⟨?_, ?_, ?_⟩ <;>
      simp [List.forall_mem_cons, List.mem_append, digitsPool_ne_nil, lettersPool_ne_nil, hsp] <;>
      tauto
  · obtain ⟨hP, hC⟩ := h
    subst hP; subst hC
    refine ⟨?_, ?_, ?_⟩ <;>
      simp [List.forall_mem_cons, List.mem_append, digitsPool_ne_nil, lettersPool_ne_nil] <;>
      tauto
  · split_ifs at h with hsp <;> simp at h
    obtain ⟨hP, hC⟩ := h
    subst hP; subst hC
    refine ⟨?_, ?_, ?_⟩ <;>
      simp [List.forall_mem_cons, List.mem_append, digitsPool_ne_nil, lettersPool_ne_nil, hsp] <;>
      tauto
  · obtain ⟨hP, hC⟩ := h
    subst hP; subst hC
    refine ⟨?_, ?_, ?_⟩ <;>
      simp [List.forall_mem_cons, List.mem_append, digitsPool_ne_nil, lettersPool_ne_nil] <;>
      tauto
  · split_ifs at h with hsp <;> simp at h
    obtain ⟨hP, hC⟩ := h
    subst hP; subst hC
    refine ⟨?_, ?_, ?_⟩ <;>
      simp [List.forall_mem_cons, List.mem_append, digitsPool_ne_nil, lettersPool_ne_nil, hsp] <;>
      tauto

/-- One mandatory character is drawn per pool. -/
theorem mandatoryChars_length (g : Nat → Nat) (pools : List (List Char)) :
    ∀ k : Nat, (mandatoryChars g k pools).length = pools.length := by
  induction pools with
  | nil => intro k; rfl
  | cons p ps ih => intro k; simp [mandatoryChars, ih]

/-- Exactly `m` filler characters are drawn. -/
theorem fillChars_length (g : Nat → Nat) (combined : List Char) (m : Nat) :
    ∀ k : Nat, (fillChars g k combined m).length = m := by
  induction m with
  | zero => intro k; rfl
  | succ m ih => intro k; simp [fillChars, ih]

/-- Every non-empty pool of the list is represented among the mandatory
characters. -/
theorem mandatoryChars_covers (g : Nat → Nat) (pools : List (List Char)) :
    ∀ (k : Nat) (p : List Char), p ∈ pools → p ≠ [] →
      ∃ c, c ∈ mandatoryChars g k pools ∧ c ∈ p := by
  induction pools with
  | nil => intro k p hp; simp at hp
  | cons q ps ih =>
    intro k p hp hne
    rcases List.mem_cons.mp hp with hq | hmem
    · subst hq
      exact ⟨choice (g k) p, List.mem_cons_self _ _, choice_mem _ _ hne⟩
    · obtain ⟨c, hc1, hc2⟩ := ih (k + 1) p hmem hne
      exact ⟨c, List.mem_cons_of_mem _ hc1, hc2⟩

/-- When every pool is non-empty and contained in `C`, every mandatory
character lies in `C`. -/
theorem mandatoryChars_subset (g : Nat → Nat) (pools : List (List Char))
    (C : List Char) (h1 : ∀ p ∈ pools, p ≠ []) (h2 : ∀ p ∈ pools, ∀ c ∈ p, c ∈ C) :
    ∀ (k : Nat) (c : Char), c ∈ mandatoryChars g k pools → c ∈ C := by
  induction pools with
  | nil => intro k c hc; simp [mandatoryChars] at hc
  | cons q ps ih =>
    intro k c hc
    rcases List.mem_cons.mp hc with hq | hmem
    · subst hq
      exact h2 q (List.mem_cons_self _ _)
        _ (choice_mem _ _ (h1 q (List.mem_cons_self _ _)))
    · exact ih (fun p hp => h1 p (List.mem_cons_of_mem _ hp))
        (fun p hp => h2 p (List.mem_cons_of_mem _ hp)) (k + 1) c hmem

/-- Every filler character is drawn from the (non-empty) combined pool. -/
theorem fillChars_subset (g : Nat → Nat) (combined : List Char)
    (h : combined ≠ []) (m : Nat) :
    ∀ (k : Nat) (c : Char), c ∈ fillChars g k combined m → c ∈ combined := by
  induction m with
  | zero => intro k c hc; simp [fillChars] at hc
  | succ m ih =>
    intro k c hc
    rcases List.mem_cons.mp hc with hq | hmem
    · subst hq; exact choice_mem _ _ h
    · exact ih (k + 1) c hmem

/-- Successful generation decomposes into a successful pool build, the two
validity checks, and the shuffle of the mandatory and filler draws. -/
theorem generate_password_ok_elim (g : Nat → Nat) (L : Int)
    (d l s : Bool) (sp : List Char) (ex : Bool) (pwd : List Char)
    (h : generate_password g L d l s sp ex = Except.ok pwd) :
    ∃ P C, build_pools d l s sp ex = Except.ok (P, C) ∧ 0 < L ∧ (P.length : Int) ≤ L ∧
      pwd = secure_shuffle g L.toNat
        (mandatoryChars g 0 P ++ fillChars g P.length C (L.toNat - P.length)) := by
  unfold generate_password at h
  split at h
  · cases h
  · next hL =>
    split at h
    · cases h
    · next P C hbp =>
      split at h
      · cases h
      · next hlt =>
        refine ⟨P, C, hbp, by omega, by omega, ?_⟩
        cases h
        rfl

/-- Every character of a generated password belongs to the combined pool. -/
theorem mem_combined_of_generate_ok (g : Nat → Nat) (L : Int)
    (d l s : Bool) (sp : List Char) (ex : Bool)
    (P : List (List Char)) (C : List Char) (pwd : List Char)
    (hbp : build_pools d l s sp ex = Except.ok (P, C))
    (h : generate_password g L d l s sp ex = Except.ok pwd) :
    ∀ c ∈ pwd, c ∈ C := by
  obtain ⟨P', C', hbp', hL, hPL, hpwd⟩ := generate_password_ok_elim g L d l s sp ex pwd h
  obtain ⟨rfl, rfl⟩ : P = P' ∧ C = C' := by
    have := hbp.symm.trans hbp'
    simpa using this
  obtain ⟨hne, hsub, hCne⟩ := build_pools_ok_facts d l s sp ex P C hbp
  subst hpwd
  intro c hc
  have hc' := (secure_shuffle_perm g L.toNat _).mem_iff.mp hc
  rcases List.mem_append.mp hc' with h1 | h2
  · exact mandatoryChars_subset g P C hne hsub 0 c h1
  · exact fillChars_subset g C hCne _ _ c h2

/-- The filtered digits contain no ambiguous character. -/
theorem digitsPool_ambiguous_free : ∀ c ∈ digitsPool true, c ∉ AMBIGUOUS := by decide

/-- The filtered letters contain no ambiguous character. -/
theorem lettersPool_ambiguous_free : ∀ c ∈ lettersPool true, c ∉ AMBIGUOUS := by decide

/-- With `exclude_ambiguous` set, the combined pool holds an ambiguous
character only if the filtered specials do: the digit and letter pools are
filtered, the specials pool is passed through unfiltered. -/
theorem build_pools_true_combined_ambiguous (d l s : Bool) (sp : List Char)
    (P : List (List Char)) (C : List Char)
    (hsp : ∀ c ∈ specialsPool sp, c ∉ AMBIGUOUS)
    (h : build_pools d l s sp true = Except.ok (P, C)) :
    ∀ c ∈ C, c ∉ AMBIGUOUS := by
  cases d <;> cases l <;> cases s <;>
    simp [build_pools, digitsPool_ne_nil, lettersPool_ne_nil] at h
  · split_ifs at h with hspe <;> simp at h
    obtain ⟨hP, hC⟩ := h
    subst hC
    exact hsp
  · obtain ⟨hP, hC⟩ := h
    subst hC
    exact lettersPool_ambiguous_free
  · split_ifs at h with hspe <;> simp at h
    obtain ⟨hP, hC⟩ := h
    subst hC
    intro c hc
    rcases List.mem_append.mp hc with hc | hc
    · exact lettersPool_ambiguous_free c hc
    · exact hsp c hc
  · obtain ⟨hP, hC⟩ := h
    subst hC
    exact digitsPool_ambiguous_free
  · split_ifs at h with hspe <;> simp at h
    obtain ⟨hP, hC⟩ := h
    subst hC
    intro c hc
    rcases List.mem_append.mp hc with hc | hc
    · exact digitsPool_ambiguous_free c hc
    · exact hsp c hc
  · obtain ⟨hP, hC⟩ := h
    subst hC
    intro c hc
    rcases List.mem_append.mp hc with hc | hc
    · exact digitsPool_ambiguous_free c hc
    · exact lettersPool_ambiguous_free c hc
  · split_ifs at h with hspe <;> simp at h
    obtain ⟨hP, hC⟩ := h
    subst hC
    intro c hc
    rcases List.mem_append.mp hc with hc | hc
    · exact digitsPool_ambiguous_free c hc
    · rcases List.mem_append.mp hc with hc | hc
      · exact lettersPool_ambiguous_free c hc
      · exact hsp c hc

/-- The mandatory draws only depend on the oracle at the consumed indices. -/
theorem mandatoryChars_congr (g₁ g₂ : Nat → Nat) (pools : List (List Char)) :
    ∀ k : Nat, (∀ i, k ≤ i → i < k + pools.length → g₁ i = g₂ i) →
      mandatoryChars g₁ k pools = mandatoryChars g₂ k pools := by
  induction pools with
  | nil => intro k _; rfl
  | cons p ps ih =>
    intro k h
    simp only [mandatoryChars]
    have hk : g₁ k = g₂ k := h k (le_refl k) (by simp)
    have hrest : mandatoryChars g₁ (k + 1) ps = mandatoryChars g₂ (k + 1) ps := by
      apply ih (k + 1)
      intro i hi1 hi2
      apply h i (by omega)
      simp only [List.length_cons]
      omega
    rw [hk, hrest]

/-- The filler draws only depend on the oracle at the consumed indices. -/
theorem fillChars_congr (g₁ g₂ : Nat → Nat) (combined : List Char) (m : Nat) :
    ∀ k : Nat, (∀ i, k ≤ i → i < k + m → g₁ i = g₂ i) →
      fillChars g₁ k combined m = fillChars g₂ k combined m := by
  induction m with
  | zero => intro k _; rfl
  | succ m ih =>
    intro k h
    simp only [fillChars]
    rw [h k (le_refl k) (by omega),
      ih (k + 1) (fun i h1 h2 => h i (by omega) (by omega))]

/-- The Fisher–Yates loop only depends on the oracle at the consumed
indices. -/
theorem fyAux_congr (g₁ g₂ : Nat → Nat) (fuel : Nat) :
    ∀ (k : Nat) (l : List Char), (∀ i, k ≤ i → i < k + fuel → g₁ i = g₂ i) →
      fyAux g₁ k l fuel = fyAux g₂ k l fuel := by
  induction fuel with
  | zero => intro k l _; rfl
  | succ n ih =>
    intro k l h
    simp only [fyAux]
    rw [h k (le_refl k) (by omega)]
    exact ih (k + 1) _ (fun i h1 h2 => h i (by omega) (by omega))

/-- C1: for every valid configuration (the validity checks are exactly the
conditions under which both calls succeed), the generated password contains
at least one character from each enabled, filtered pool. -/
theorem generate_password_covers_each_pool (g : Nat → Nat) (L : Int)
    (d l s : Bool) (sp : List Char) (ex : Bool)
    (P : List (List Char)) (C : List Char) (pwd : List Char)
    (hbp : build_pools d l s sp ex = Except.ok (P, C))
    (h : generate_password g L d l s sp ex = Except.ok pwd) :
    ∀ p ∈ P, ∃ c, c ∈ pwd ∧ c ∈ p := by
  obtain ⟨P', C', hbp', hL, hPL, hpwd⟩ := generate_password_ok_elim g L d l s sp ex pwd h
  obtain ⟨rfl, rfl⟩ : P = P' ∧ C = C' := by
    have := hbp.symm.trans hbp'
    simpa using this
  obtain ⟨hne, hsub, hCne⟩ := build_pools_ok_facts d l s sp ex P C hbp
  subst hpwd
  intro p hp
  obtain ⟨c, hc1, hc2⟩ := mandatoryChars_covers g P 0 p hp (hne p hp)
  exact ⟨c, (secure_shuffle_perm g L.toNat _).mem_iff.mpr (List.mem_append_left _ hc1), hc2⟩

/-- Witness for C1 at the digits-only configuration of length 1, whose
output under the all-zero oracle is the single character 2: that output
meets the digits pool. -/
theorem generate_password_covers_each_pool_witness :
    ∃ c, c ∈ (['2'] : List Char) ∧ c ∈ digitsPool true :=
  generate_password_covers_each_pool (fun _ => 0) 1 true false false [] true
    [digitsPool true] (digitsPool true) ['2'] rfl rfl (digitsPool true) (by decide)

/-- C2: whenever generation succeeds, the password has exactly the requested
length, whatever the oracle produced. -/
theorem generate_password_length_exact (g : Nat → Nat) (L : Int)
    (d l s : Bool) (sp : List Char) (ex : Bool) (pwd : List Char)
    (h : generate_password g L d l s sp ex = Except.ok pwd) :
    (pwd.length : Int) = L := by
  obtain ⟨P, C, hbp, hL, hPL, hpwd⟩ := generate_password_ok_elim g L d l s sp ex pwd h
  subst hpwd
  rw [(secure_shuffle_perm g L.toNat _).length_eq, List.length_append,
    mandatoryChars_length, fillChars_length]
  omega

/-- Witness for C2 at the digits-only configuration of length 1. -/
theorem generate_password_length_exact_witness :
    (((['2'] : List Char)).length : Int) = 1 :=
  generate_password_length_exact (fun _ => 0) 1 true false false [] true ['2'] rfl

/-- C3 counterexample: a valid configuration (length 1, symbols only, custom
symbol string "o", `exclude_ambiguous` set) whose output is the ambiguous
character o — the source never filters the specials pool for ambiguity. -/
theorem generate_password_ambiguous_cex :
    generate_password (fun _ => 0) 1 false false true ['o'] true = Except.ok ['o'] ∧
    'o' ∈ (['o'] : List Char) ∧ 'o' ∈ AMBIGUOUS :=
  ⟨rfl, by decide, by decide⟩

/-- C3 amended: with `exclude_ambiguous` set, the output contains no
ambiguous character PROVIDED the whitespace-filtered symbol string contains
none (in particular when symbols are disabled or the default symbol set is
used); the digit and letter pools are always filtered, the specials pool
never is. -/
theorem generate_password_ambiguous_amended (g : Nat → Nat) (L : Int)
    (d l s : Bool) (sp : List Char) (pwd : List Char)
    (hsp : ∀ c ∈ specialsPool sp, c ∉ AMBIGUOUS)
    (h : generate_password g L d l s sp true = Except.ok pwd) :
    ∀ c ∈ pwd, c ∉ AMBIGUOUS := by
  obtain ⟨P, C, hbp, _, _, _⟩ := generate_password_ok_elim g L d l s sp true pwd h
  intro c hc
  exact build_pools_true_combined_ambiguous d l s sp P C hsp hbp c
    (mem_combined_of_generate_ok g L d l s sp true P C pwd hbp h c hc)

/-- Witness for the amended C3 at the default configuration of length 4,
whose output under the all-zero oracle begins with the character a. -/
theorem generate_password_ambiguous_amended_witness :
    ('a' : Char) ∉ AMBIGUOUS :=
  generate_password_ambiguous_amended (fun _ => 0) 4 true true true DEFAULT_SPECIALS
    ['a', '!', '2', '2'] (by decide) rfl 'a' (by decide)

/-- C4 counterexample: with all three classes disabled and length 0 the call
fails with the positive-length message, not the no-class message — the
length check precedes pool building. -/
theorem generate_password_no_class_cex :
    errorPart (generate_password (fun _ => 0) 0 false false false [] true) =
      some "Length must be positive." ∧
    "Length must be positive." ≠ "Select at least one character set." :=
  ⟨rfl, by decide⟩

/-- C4 amended: for every POSITIVE length, disabling all three classes fails
with the no-class message; for non-positive lengths the positive-length
check fires first. -/
theorem generate_password_no_class_amended (g : Nat → Nat) (L : Int)
    (sp : List Char) (ex : Bool) (hL : 0 < L) :
    generate_password g L false false false sp ex =
      Except.error "Select at least one character set." := by
  unfold generate_password
  rw [if_neg (by omega)]
  simp [build_pools]

/-- Witness for the amended C4 at length 7. -/
theorem generate_password_no_class_amended_witness :
    generate_password (fun _ => 0) 7 false false false [] true =
      Except.error "Select at least one character set." :=
  generate_password_no_class_amended (fun _ => 0) 7 [] true (by decide)

/-- C5 counterexample: a configuration whose pools build successfully
(digits only, one pool) with requested length 0 strictly below the pool
count fails with the positive-length message, not the length-too-short
message. -/
theorem generate_password_too_short_cex :
    build_pools true false false [] true = Except.ok ([digitsPool true], digitsPool true) ∧
    (0 : Int) < (([digitsPool true] : List (List Char)).length : Int) ∧
    errorPart (generate_password (fun _ => 0) 0 true false false [] true) =
      some "Length must be positive." ∧
    "Length must be positive." ≠ lengthErrMsg 1 :=
  ⟨rfl, by decide, rfl, by decide⟩

/-- C5 amended: for every POSITIVE requested length, if the pools build
successfully and the length is strictly below the number of active pools,
generation fails with the length-too-short message; in particular length 2
with all three classes enabled. -/
theorem generate_password_too_short_amended (g : Nat → Nat) (L : Int)
    (d l s : Bool) (sp : List Char) (ex : Bool) (P : List (List Char)) (C : List Char)
    (hL : 0 < L) (hbp : build_pools d l s sp ex = Except.ok (P, C))
    (hlt : L < (P.length : Int)) :
    generate_password g L d l s sp ex = Except.error (lengthErrMsg P.length) := by
  unfold generate_password
  rw [if_neg (by omega), hbp]
  simp [hlt]

/-- Witness for the amended C5: the claims own instance, length 2 with all
three classes enabled, fails with the message naming 3 pools. -/
theorem generate_password_too_short_amended_witness :
    generate_password (fun _ => 0) 2 true true true DEFAULT_SPECIALS true =
      Except.error (lengthErrMsg 3) :=
  generate_password_too_short_amended (fun _ => 0) 2 true true true DEFAULT_SPECIALS true
    [digitsPool true, lettersPool true, specialsPool DEFAULT_SPECIALS]
    (digitsPool true ++ (lettersPool true ++ specialsPool DEFAULT_SPECIALS))
    (by decide) rfl (by decide)

/-- C6: with symbols enabled, pool building fails with the empty-symbol-set
message exactly when the whitespace-filtered symbol string is empty; when it
is non-empty that error is never raised (for any flag combination). -/
theorem build_pools_empty_specials_spec (d l : Bool) (sp : List Char) (ex : Bool) :
    (specialsPool sp = [] →
      build_pools d l true sp ex =
        Except.error "Specials set is empty after removing whitespace.") ∧
    (specialsPool sp ≠ [] → ∀ s : Bool,
      build_pools d l s sp ex ≠
        Except.error "Specials set is empty after removing whitespace.") := by
  constructor
  · intro hsp
    cases d <;> cases l <;> simp [build_pools, hsp]
  · intro hsp s
    cases d <;> cases l <;> cases s <;>
      simp [build_pools, hsp, digitsPool_ne_nil, lettersPool_ne_nil] <;>
      decide

/-- Witness for C6: a single-space symbol string triggers the error, a
non-empty one does not. -/
theorem build_pools_empty_specials_spec_witness :
    build_pools true true true [' '] true =
      Except.error "Specials set is empty after removing whitespace." ∧
    build_pools true true true ['!'] true ≠
      Except.error "Specials set is empty after removing whitespace." :=
  ⟨(build_pools_empty_specials_spec true true [' '] true).1 (by decide),
   (build_pools_empty_specials_spec true true ['!'] true).2 (by decide) true⟩

/-- C7: whether an error occurs, and which message it carries, is
independent of the random oracle — every validity check precedes the first
draw, errors carry no partial output, and the outcome is a deterministic
function of the arguments. -/
theorem generate_password_error_independent (g₁ g₂ : Nat → Nat) (L : Int)
    (d l s : Bool) (sp : List Char) (ex : Bool) :
    errorPart (generate_password g₁ L d l s sp ex) =
      errorPart (generate_password g₂ L d l s sp ex) := by
  unfold generate_password
  by_cases hL : L ≤ 0
  · simp [hL]
  · cases hbp : build_pools d l s sp ex with
    | error e => simp [hL]
    | ok pc =>
      obtain ⟨P, C⟩ := pc
      by_cases hlt : L < (P.length : Int)
      · simp [hL, hlt]
      · simp [hL, hlt, errorPart]

/-- C8: `secure_shuffle` is the Fisher–Yates loop (index descending from the
last position, drawn index bounded by the current position via
`randbelow (i + 1)`), so for every input list and every oracle the result is
a permutation of the input — same multiset, same length. -/
theorem secure_shuffle_fisher_yates (g : Nat → Nat) (k : Nat) (items : List Char) :
    (secure_shuffle g k items).Perm items ∧
    (secure_shuffle g k items).length = items.length :=
  ⟨secure_shuffle_perm g k items, (secure_shuffle_perm g k items).length_eq⟩

/-- C9: two runs with identical arguments whose oracles agree on every index
the run can consume (fewer than `2 · length` draws) return identical
results, byte for byte. -/
theorem generate_password_reproducible (g₁ g₂ : Nat → Nat) (L : Int)
    (d l s : Bool) (sp : List Char) (ex : Bool)
    (h : ∀ i, i < 2 * L.toNat → g₁ i = g₂ i) :
    generate_password g₁ L d l s sp ex = generate_password g₂ L d l s sp ex := by
  unfold generate_password
  by_cases hL : L ≤ 0
  · simp [hL]
  · cases hbp : build_pools d l s sp ex with
    | error e => simp [hL]
    | ok pc =>
      obtain ⟨P, C⟩ := pc
      by_cases hlt : L < (P.length : Int)
      · simp [hL, hlt]
      · rw [if_neg hL, if_neg hL]
        have hPn : P.length ≤ L.toNat := by omega
        have hL1 : 1 ≤ L.toNat := by omega
        have hmand : mandatoryChars g₁ 0 P = mandatoryChars g₂ 0 P := by
          apply mandatoryChars_congr
          intro i hi1 hi2
          exact h i (by omega)
        have hfill : fillChars g₁ P.length C (L.toNat - P.length) =
            fillChars g₂ P.length C (L.toNat - P.length) := by
          apply fillChars_congr
          intro i hi1 hi2
          exact h i (by omega)
        simp only [hlt, if_false, hmand, hfill]
        have hlen : (mandatoryChars g₂ 0 P ++
            fillChars g₂ P.length C (L.toNat - P.length)).length = L.toNat := by
          rw [List.length_append, mandatoryChars_length, fillChars_length]
          omega
        congr 1
        unfold secure_shuffle
        rw [hlen]
        apply fyAux_congr
        intro i hi1 hi2
        exact h i (by omega)

/-- Witness for C9: two oracles that agree on the first 6 draws (all a run
of length 3 can consume) and differ afterwards give equal outputs. -/
theorem generate_password_reproducible_witness :
    generate_password (fun _ => 0) 3 true true true DEFAULT_SPECIALS true =
      generate_password (fun i => if i < 6 then 0 else 99) 3 true true true DEFAULT_SPECIALS true :=
  generate_password_reproducible (fun _ => 0) (fun i => if i < 6 then 0 else 99) 3
    true true true DEFAULT_SPECIALS true (by decide)

/-- C10: every character of a generated password belongs to the combined
pool returned by `build_pools` (the concatenation of the active filtered
pools), whatever the oracle produced. -/
theorem generate_password_output_subset (g : Nat → Nat) (L : Int)
    (d l s : Bool) (sp : List Char) (ex : Bool)
    (P : List (List Char)) (C : List Char) (pwd : List Char)
    (hbp : build_pools d l s sp ex = Except.ok (P, C))
    (h : generate_password g L d l s sp ex = Except.ok pwd) :
    ∀ c ∈ pwd, c ∈ C :=
  mem_combined_of_generate_ok g L d l s sp ex P C pwd hbp h

/-- Witness for C10 at the digits-only configuration of length 1: the
single output character lies in the combined pool. -/
theorem generate_password_output_subset_witness :
    ('2' : Char) ∈ digitsPool true :=
  generate_password_output_subset (fun _ => 0) 1 true false false [] true
    [digitsPool true] (digitsPool true) ['2'] rfl rfl '2' (by decide)

end PasswordGenerator
